import Mathlib

/-!
Verification of the incremental business-listing extraction pipeline
(`hotchips_final.py`): field validation, dedup classification, and the
duplicate-ledger rotation/merge logic, shallowly embedded in Lean.

The embedding models the pure decision logic of the script; external I/O
(the rendered map surface, workbook files, console) is abstracted into
explicit parameters (candidate lists, row lists, input lists, probe
oracles) so that every definition is executable.

Conventions of the embedding:
- A workbook file is modelled by its list of data rows (the fixed header
  row is implicit; readers in the script start at `min_row=2`).
- Python sets are modelled as lists together with membership; insertion
  order is irrelevant to every property proved here.
- `datetime.now()` is abstracted as an explicit `today` parameter.
-/

namespace HotChips

/-! ## Definitions -/

/-- Python `str.lower()` (ASCII), character by character. -/
def pyLower (s : String) : String :=
  String.mk (s.data.map Char.toLower)

/-- Python `str.strip()`: drop leading and trailing whitespace. -/
def pyStrip (s : String) : String :=
  String.mk
    (((s.data.dropWhile Char.isWhitespace).reverse.dropWhile
        Char.isWhitespace).reverse)

/-- Maximal digit runs of a character list: `digitRunsAux cs acc` scans
`cs` with `acc` the digit run currently being built (in order). Mirrors
`re.findall(r'\d+', s)` in `validate_phone`. -/
def digitRunsAux : List Char → List Char → List (List Char)
  | [], acc => if acc.isEmpty then [] else [acc]
  | c :: rest, acc =>
    if c.isDigit then digitRunsAux rest (acc ++ [c])
    else if acc.isEmpty then digitRunsAux rest []
    else acc :: digitRunsAux rest []

/-- The list of maximal digit runs of a string, as strings
(`re.findall(r'\d+', s)`). -/
def digitRuns (s : String) : List String :=
  (digitRunsAux s.data []).map String.mk

/-- Model of `validate_phone` (lines 31-38): join all digit runs
(`"".join(re.findall(r'\d+', s))`); accept the joined digits iff their
count is between 10 and 13, else return the `"NA"` sentinel. The empty
string is falsy in Python and is rejected up front. -/
def validate_phone (rawText : String) : String :=
  if rawText = "" then "NA"
  else
    let digits : String := String.mk (digitRunsAux rawText.data []).flatten
    if 10 ≤ digits.length ∧ digits.length ≤ 13 then digits else "NA"

/-- Total length of all digit runs of a string (used to state what
`validate_phone` actually tests). -/
def totalDigitRunLength (s : String) : Nat :=
  ((digitRuns s).map String.length).sum

/-- Python's `str.isdigit` restricted to ASCII: nonempty and all digits. -/
def pyIsDigit (s : String) : Bool :=
  !s.data.isEmpty && s.data.all Char.isDigit

/-- Model of `is_obviously_invalid_area` (lines 180-191): reject empty/whitespace
input, purely-numeric input, input with no `[A-Za-z]` letter, and input
with fewer than two letters. `Char.isAlpha` is exactly `[A-Za-z]`. -/
def is_obviously_invalid_area (areaText : String) : Bool :=
  if pyStrip areaText = "" then true
  else
    let s := pyStrip areaText
    if pyIsDigit s then true
    else
      let letters := s.data.filter Char.isAlpha
      if letters.isEmpty then true
      else if letters.length < 2 then true
      else false

/-- Outcome of the interactive area-validation loop: an accepted area or
process exit (`sys.exit(1)`). -/
inductive AreaOutcome
  | accepted (area : String)
  | exited
deriving DecidableEq

/-- Result of the area-validation loop together with the list of queries
actually sent to the external probe (`check_area_on_maps`), in order. -/
structure AreaResult where
  outcome : AreaOutcome
  probes : List String
deriving DecidableEq

/-- Model of `get_valid_area_from_user` (lines 234-255): console inputs are given
as a list (each `input(...).strip()` is modelled by `pyStrip`), the external
probe `check_area_on_maps` as an oracle, and the attempt counter by the
count of attempts remaining. The probe log records every probed query. -/
def get_valid_area_from_user (probe : String → Bool) :
    List String → Nat → AreaResult
  | _, 0 => ⟨.exited, []⟩
  | [], _ + 1 => ⟨.exited, []⟩
  | areaText :: rest, n + 1 =>
    let a := pyStrip areaText
    if is_obviously_invalid_area a then
      if n = 0 then ⟨.exited, []⟩
      else get_valid_area_from_user probe rest n
    else if probe a then ⟨.accepted a, [a]⟩
    else if n = 0 then ⟨.exited, [a]⟩
    else
      let r := get_valid_area_from_user probe rest n
      ⟨r.outcome, a :: r.probes⟩

/-- A data row of a run-output or duplicate workbook:
`[date, shop_name, phone_number, area_location, google_maps_of_the_area]`. -/
structure Row where
  date : String
  shop_name : String
  phone_number : String
  area_location : String
  maps_url : String
deriving DecidableEq

/-- A discovered listing after field resolution: the card name and the
three resolved fields (`phone`, `address_text`, `google_maps_loc`).
Field extraction against the live page is outside the core model. -/
structure Candidate where
  name : String
  phone : String
  address : String
  url : String
deriving DecidableEq

/-- The normalized name, `norm_name = (name or "N/A").strip().lower()`
(line 442):
an empty name is falsy in Python and falls back to `"N/A"`. -/
def normName (name : String) : String :=
  pyLower (pyStrip (if name = "" then "N/A" else name))

/-- The row written for a candidate
(`[today, name, phone, address_text, google_maps_loc]`). -/
def mkRow (today : String) (c : Candidate) : Row :=
  ⟨today, c.name, c.phone, c.address, c.url⟩

/-- In-memory state of one extraction run (`scrape_hot_chips` locals):
the growing historical key set, the in-run seen set, the duplicate rows
and their dedup set, the main file's data rows, and the saved counter. -/
structure RunState where
  historical : List String
  seenThisRun : List String
  dupEntries : List Row
  dupSeen : List (String × String × String × String)
  mainRows : List Row
  saved : Nat
deriving DecidableEq

/-- Processing of one candidate (`scrape_hot_chips` loop body,
lines 430-611): skip when the normalized name was already seen this run;
otherwise record a duplicate row when the name is historically seen
(guarded by `dup_seen`), then append the row to the main file, bump
`saved`, and insert the normalized name into both sets. -/
def processCandidate (today : String) (st : RunState) (c : Candidate) :
    RunState :=
  let nn := normName c.name
  if nn ∈ st.seenThisRun then st
  else
    let st1 :=
      if nn ∈ st.historical then
        let dupRow := (c.name, c.phone, c.address, c.url)
        if dupRow ∈ st.dupSeen then st
        else
          { st with
            dupEntries := st.dupEntries ++ [mkRow today c]
            dupSeen := st.dupSeen ++ [dupRow] }
      else st
    { st1 with
      mainRows := st1.mainRows ++ [mkRow today c]
      saved := st1.saved + 1
      seenThisRun := st1.seenThisRun ++ [nn]
      historical := st1.historical ++ [nn] }

/-- The candidate loop of `scrape_hot_chips`: process the candidates the
session presents, in order, stopping once `saved ≥ count_needed`
(the `if saved >= count_needed: break` checks, lines 392/427/616/627). -/
def runCandidates (today : String) (countNeeded : Nat) (st : RunState) :
    List Candidate → RunState
  | [] => st
  | c :: cs =>
    if countNeeded ≤ st.saved then st
    else runCandidates today countNeeded (processCandidate today st c) cs

/-- Model of `scrape_hot_chips` (state part, lines 353-664): start from the loaded
historical keys and empty run state and fold the candidate loop. -/
def scrape_hot_chips (today : String) (countNeeded : Nat)
    (historicalKeys : List String) (cands : List Candidate) : RunState :=
  runCandidates today countNeeded ⟨historicalKeys, [], [], [], [], 0⟩ cands

/-- Model of `load_all_previous_entries` (lines 160-175): collect
`(row[1] or "").strip().lower()` over every data row of every prior main
file, keeping only nonempty keys (`if shop:`). -/
def load_all_previous_entries (files : List (List Row)) : List String :=
  (files.flatten.map fun r => pyLower (pyStrip r.shop_name)).filter
    fun s => s != ""

/-- The identity key of a duplicate-ledger row, as read back by
`read_entries_from_dup` (lines 81-93) and recomputed in
`append_to_and_update_timestamp` (lines 126-127):
`((row[1] or "").strip().lower(), (row[3] or "").strip())`. -/
def dupKey (r : Row) : String × String :=
  (pyLower (pyStrip r.shop_name), pyStrip r.area_location)

/-- Model of `save_timestamped_dup` (lines 95-120): the new rotated file's data
rows are exactly the given rows (hyperlink styling is cosmetic). -/
def save_timestamped_dup (rows : List Row) : List Row :=
  rows

/-- Model of `append_to_and_update_timestamp` (lines 122-158), success
path: read
the existing rotated file's key set, drop the new rows whose key is
already present, append the remainder to the existing rows, and write the
result as the new rotated file (the old one is deleted). -/
def append_to_and_update_timestamp (existingRows newRows : List Row) :
    List Row :=
  let existingSet := existingRows.map dupKey
  existingRows ++ newRows.filter fun r => decide (dupKey r ∉ existingSet)

/-- A row all of whose cells are blank after stripping
(cf. `is_workbook_empty`, lines 66-79). -/
def rowIsBlank (r : Row) : Bool :=
  pyStrip r.date == "" && pyStrip r.shop_name == "" && pyStrip r.phone_number == ""
    && pyStrip r.area_location == "" && pyStrip r.maps_url == ""

/-- Model of `is_workbook_empty` (lines 66-79): no data row has a
nonblank cell. -/
def is_workbook_empty (rows : List Row) : Bool :=
  rows.all rowIsBlank

/-- The duplicate-file directory state: the optional unrotated placeholder
(`duplicated.xlsx`) and the optional latest rotated file
(`duplicated_<ts>.xlsx`), each modelled by its data rows. -/
structure DupFiles where
  base : Option (List Row)
  rotated : Option (List Row)
deriving DecidableEq

/-- End-of-run duplicate-file handling (`scrape_hot_chips`,
lines 666-698): with no duplicates this run, create a header-only
placeholder iff no duplicate file of either kind exists; with duplicates,
merge into the rotated file (or create the first rotation) and delete the
placeholder when it exists and is empty. -/
def finalize_duplicate_files (fs : DupFiles) (dupEntries : List Row) :
    DupFiles :=
  if dupEntries.isEmpty then
    if fs.base.isNone && fs.rotated.isNone then
      { base := some [], rotated := none }
    else fs
  else
    let rotated' :=
      match fs.rotated with
      | some existingRows => append_to_and_update_timestamp existingRows dupEntries
      | none => save_timestamped_dup dupEntries
    let base' :=
      match fs.base with
      | some b => if is_workbook_empty b then none else some b
      | none => none
    { base := base', rotated := some rotated' }

/-- Proof-infrastructure invariant of the run state: duplicate rows have
pairwise distinct normalized names, every recorded normalized name is in
the seen set and nonempty, and the empty key can enter the historical set
only together with the seen set. Established by the run from
`load_all_previous_entries` (which never yields an empty key). -/
def DupInv (st : RunState) : Prop :=
  (st.dupEntries.map fun r => normName r.shop_name).Nodup
  ∧ (∀ r ∈ st.dupEntries, normName r.shop_name ∈ st.seenThisRun)
  ∧ (∀ r ∈ st.dupEntries, normName r.shop_name ≠ "")
  ∧ ("" ∈ st.historical → "" ∈ st.seenThisRun)

/-! ## Helper lemmas -/

/-- The digit runs of a string, joined, are exactly the digit characters
of the string in order (generalised over the accumulator). -/
theorem digitRunsAux_flatten (cs : List Char) :
    ∀ acc : List Char,
      (digitRunsAux cs acc).flatten = acc ++ cs.filter Char.isDigit := by
  induction cs with
  | nil =>
    intro acc
    by_cases h : acc.isEmpty
    · simp [digitRunsAux, h, List.isEmpty_iff.mp h]
    · simp [digitRunsAux, h]
  | cons c rest ih =>
    intro acc
    by_cases hd : c.isDigit
    · simp [digitRunsAux, hd, ih (acc ++ [c]), List.filter_cons, List.append_assoc]
    · by_cases he : acc.isEmpty
      · simp [digitRunsAux, hd, he, ih [], List.filter_cons, List.isEmpty_iff.mp he]
      · simp [digitRunsAux, hd, he, ih [], List.filter_cons]

/-- Joined digit runs = the digit characters of the input, in order. -/
theorem digitRuns_flatten (s : String) :
    (digitRunsAux s.data []).flatten = s.data.filter Char.isDigit := by
  simpa using digitRunsAux_flatten s.data []

/-- Characterisation of `validate_phone` by the digit characters of the
input. -/
theorem validate_phone_eq_filter (s : String) :
    validate_phone s =
      if s = "" then "NA"
      else
        if 10 ≤ (s.data.filter Char.isDigit).length ∧
            (s.data.filter Char.isDigit).length ≤ 13 then
          String.mk (s.data.filter Char.isDigit)
        else "NA" := by
  unfold validate_phone
  rw [digitRuns_flatten]
  rfl

/-- The total digit-run length is the number of digit characters. -/
theorem totalDigitRunLength_eq (s : String) :
    totalDigitRunLength s = (s.data.filter Char.isDigit).length := by
  unfold totalDigitRunLength digitRuns
  rw [← digitRuns_flatten s, List.length_flatten, List.map_map]
  rfl

/-- Helper: a candidate whose normalized name is in the seen set is a
no-op (the `continue` at line 444). -/
theorem processCandidate_skip (today : String) (st : RunState)
    (c : Candidate) (h : normName c.name ∈ st.seenThisRun) :
    processCandidate today st c = st := by
  unfold processCandidate
  simp [h]

/-! ## Claim theorems -/

/-- C7: on a pure digit string, `validate_phone` rejects lengths 9 and 14
(returning the `"NA"` sentinel) and returns strings of length 10 and 13
unchanged. -/
theorem validate_phone_pure_digit_lengths (s : String)
    (hd : ∀ c ∈ s.data, c.isDigit) :
    ((s.length = 9 ∨ s.length = 14) → validate_phone s = "NA") ∧
    ((s.length = 10 ∨ s.length = 13) → validate_phone s = s) := by
  have hfilter : s.data.filter Char.isDigit = s.data :=
    List.filter_eq_self.mpr hd
  have hlen : s.length = s.data.length := rfl
  constructor
  · intro h9
    have hne : s ≠ "" := by
      intro h0
      subst h0
      simp [String.length] at h9
    rw [validate_phone_eq_filter, if_neg hne, hfilter, if_neg]
    rw [hlen] at h9
    omega
  · intro h10
    have hne : s ≠ "" := by
      intro h0
      subst h0
      simp [String.length] at h10
    rw [hlen] at h10
    rw [validate_phone_eq_filter, if_neg hne, hfilter,
      if_pos (by omega : 10 ≤ s.data.length ∧ s.data.length ≤ 13)]

/-- C7 witness: concrete pure digit strings of lengths 9, 14, 10, 13. -/
theorem validate_phone_pure_digit_lengths_spotcheck :
    validate_phone "123456789" = "NA" ∧
    validate_phone "12345678901234" = "NA" ∧
    validate_phone "1234567890" = "1234567890" ∧
    validate_phone "1234567890123" = "1234567890123" :=
  ⟨(validate_phone_pure_digit_lengths "123456789" (by decide)).1
      (Or.inl (by decide)),
   (validate_phone_pure_digit_lengths "12345678901234" (by decide)).1
      (Or.inr (by decide)),
   (validate_phone_pure_digit_lengths "1234567890" (by decide)).2
      (Or.inl (by decide)),
   (validate_phone_pure_digit_lengths "1234567890123" (by decide)).2
      (Or.inr (by decide))⟩

/-- C10: `validate_phone` always returns either the sentinel `"NA"` or a
string of 10 to 13 digit characters equal to the concatenation of all
maximal digit runs of the input; it never returns a partially-cleaned
string containing non-digit characters. -/
theorem validate_phone_shape (s : String) :
    validate_phone s = "NA" ∨
      ((validate_phone s).data = ((digitRuns s).map String.data).flatten ∧
       (∀ c ∈ (validate_phone s).data, c.isDigit) ∧
       10 ≤ (validate_phone s).length ∧ (validate_phone s).length ≤ 13) := by
  rw [validate_phone_eq_filter]
  by_cases hs : s = ""
  · left
    rw [if_pos hs]
  · rw [if_neg hs]
    by_cases hc : 10 ≤ (s.data.filter Char.isDigit).length ∧
        (s.data.filter Char.isDigit).length ≤ 13
    · right
      rw [if_pos hc]
      refine ⟨?_, ?_, hc.1, hc.2⟩
      · show s.data.filter Char.isDigit = ((digitRuns s).map String.data).flatten
        rw [← digitRuns_flatten s]
        unfold digitRuns
        rw [List.map_map, show String.data ∘ String.mk = id from rfl,
          List.map_id]
      · intro c hcmem
        exact (List.mem_filter.mp hcmem).2
    · left
      rw [if_neg hc]

/-- C3 counterexample: every digit run of `"12345 67890"` is shorter than
10 characters, yet `validate_phone` does not return the sentinel: it
accepts the concatenation of the two runs. Per-run acceptance would
return `"NA"` here. -/
theorem validate_phone_per_run_counterexample :
    (∀ r ∈ digitRuns "12345 67890", r.length < 10) ∧
    validate_phone "12345 67890" = "1234567890" ∧
    validate_phone "12345 67890" ≠ "NA" := by
  decide

/-- C3 amended: `validate_phone` does not examine digit runs
individually; it accepts iff the *total* length of all digit runs is in
`[10, 13]`, in which case it returns the concatenation of all digit
characters — in particular an input whose runs are all shorter than 10
is still accepted when the total is in range. -/
theorem validate_phone_total_run_length (s : String) (hs : s ≠ "") :
    (10 ≤ totalDigitRunLength s ∧ totalDigitRunLength s ≤ 13 →
        validate_phone s = String.mk (s.data.filter Char.isDigit)) ∧
    (¬(10 ≤ totalDigitRunLength s ∧ totalDigitRunLength s ≤ 13) →
        validate_phone s = "NA") := by
  rw [totalDigitRunLength_eq, validate_phone_eq_filter, if_neg hs]
  constructor
  · intro h
    rw [if_pos h]
  · intro h
    rw [if_neg h]

/-- C3 amended witness: the two runs of `"12345 67890"` total 10 digits,
so the input is accepted as their concatenation. -/
theorem validate_phone_total_run_length_spotcheck :
    validate_phone "12345 67890" =
      String.mk ("12345 67890".data.filter Char.isDigit) :=
  (validate_phone_total_run_length "12345 67890" (by decide)).1 (by decide)

/-- C9: a candidate whose normalized (stripped, lowercased) name is
already in the in-run seen set is skipped entirely: processing it leaves
the whole run state unchanged — no main row, no duplicate entry, no
counter bump. -/
theorem processCandidate_seen_frame (today : String) (st : RunState)
    (c : Candidate) (h : normName c.name ∈ st.seenThisRun) :
    processCandidate today st c = st := by
  unfold processCandidate
  simp [h]

/-- C9 witness: a concrete already-seen candidate is a no-op. -/
theorem processCandidate_seen_frame_spotcheck :
    processCandidate "d" ⟨["a"], ["a"], [], [], [], 1⟩ ⟨"A", "p", "x", "u"⟩
      = ⟨["a"], ["a"], [], [], [], 1⟩ :=
  processCandidate_seen_frame "d" ⟨["a"], ["a"], [], [], [], 1⟩
    ⟨"A", "p", "x", "u"⟩ (by decide)

/-- C2 counterexample: the same candidate presented twice in one run with
its key in neither set initially: the second sighting is skipped, not
recorded — the run ends with no duplicate row at all and a single main
row, where the claim predicts the second sighting is classified and
recorded as a Duplicate. -/
theorem classify_twice_counterexample :
    (scrape_hot_chips "d" 2 []
        [⟨"A", "p", "x", "u"⟩, ⟨"A", "p", "x", "u"⟩]).dupEntries = [] ∧
    (scrape_hot_chips "d" 2 []
        [⟨"A", "p", "x", "u"⟩, ⟨"A", "p", "x", "u"⟩]).mainRows
      = [⟨"d", "A", "p", "x", "u"⟩] := by
  decide

/-- C2 amended: a first sighting of a key in neither set is classified
New — its row is appended to the main file, no duplicate row is recorded,
and the key is inserted into both the seen set and the historical set;
a second sighting of the same key in the same run is skipped entirely
(no state change), not recorded as a Duplicate. -/
theorem classify_twice_amended (today : String) (st : RunState)
    (c : Candidate) (h1 : normName c.name ∉ st.seenThisRun)
    (h2 : normName c.name ∉ st.historical) :
    (processCandidate today st c).mainRows = st.mainRows ++ [mkRow today c] ∧
    (processCandidate today st c).dupEntries = st.dupEntries ∧
    normName c.name ∈ (processCandidate today st c).seenThisRun ∧
    normName c.name ∈ (processCandidate today st c).historical ∧
    processCandidate today (processCandidate today st c) c
      = processCandidate today st c := by
  have hstep : processCandidate today st c =
      { st with
        mainRows := st.mainRows ++ [mkRow today c]
        saved := st.saved + 1
        seenThisRun := st.seenThisRun ++ [normName c.name]
        historical := st.historical ++ [normName c.name] } := by
    unfold processCandidate
    simp [h1, h2]
  refine ⟨by rw [hstep], by rw [hstep], ?_, ?_, ?_⟩
  · rw [hstep]
    simp
  · rw [hstep]
    simp
  · apply processCandidate_skip
    rw [hstep]
    simp

/-- C2 amended witness: a concrete fresh candidate processed twice. -/
theorem classify_twice_amended_spotcheck :
    (processCandidate "d" ⟨[], [], [], [], [], 0⟩ ⟨"A", "p", "x", "u"⟩).mainRows
        = [] ++ [mkRow "d" ⟨"A", "p", "x", "u"⟩] ∧
    (processCandidate "d" ⟨[], [], [], [], [], 0⟩ ⟨"A", "p", "x", "u"⟩).dupEntries
        = [] ∧
    normName "A" ∈
      (processCandidate "d" ⟨[], [], [], [], [], 0⟩ ⟨"A", "p", "x", "u"⟩).seenThisRun ∧
    normName "A" ∈
      (processCandidate "d" ⟨[], [], [], [], [], 0⟩ ⟨"A", "p", "x", "u"⟩).historical ∧
    processCandidate "d"
        (processCandidate "d" ⟨[], [], [], [], [], 0⟩ ⟨"A", "p", "x", "u"⟩)
        ⟨"A", "p", "x", "u"⟩
      = processCandidate "d" ⟨[], [], [], [], [], 0⟩ ⟨"A", "p", "x", "u"⟩ :=
  classify_twice_amended "d" ⟨[], [], [], [], [], 0⟩ ⟨"A", "p", "x", "u"⟩
    (by decide) (by decide)


/-- C1 counterexample: with the historical index containing candidate
B's key and candidates A, B, C distinct with `count_needed = 3`, the main
file receives three rows — including B's row — not two: a
historically-seen candidate's row IS re-inserted into the run ledger
(the script's comment: "record duplicate info if historically seen, but
still write to main file"). -/
theorem historical_rerecord_counterexample :
    (scrape_hot_chips "d" 3 ["b"]
        [⟨"A", "p1", "x", "u1"⟩, ⟨"B", "p2", "y", "u2"⟩,
         ⟨"C", "p3", "z", "u3"⟩]).mainRows.length = 3 ∧
    (⟨"d", "B", "p2", "y", "u2"⟩ : Row) ∈
      (scrape_hot_chips "d" 3 ["b"]
        [⟨"A", "p1", "x", "u1"⟩, ⟨"B", "p2", "y", "u2"⟩,
         ⟨"C", "p3", "z", "u3"⟩]).mainRows ∧
    (scrape_hot_chips "d" 3 ["b"]
        [⟨"A", "p1", "x", "u1"⟩, ⟨"B", "p2", "y", "u2"⟩,
         ⟨"C", "p3", "z", "u3"⟩]).dupEntries.length = 1 := by
  decide

/-- C1 amended: in the scenario (historical contains only candidate #2's
key; #1, #2, #3 have pairwise distinct keys; `count_needed = 3`), the run
ledger receives THREE rows — #2's row is re-inserted despite being
historically seen — and the duplicate ledger rows gain exactly the one
row for #2. -/
theorem run_with_one_historical (today : String) (h : List String)
    (c1 c2 c3 : Candidate)
    (h1 : normName c1.name ∉ h) (h2 : normName c2.name ∈ h)
    (h3 : normName c3.name ∉ h)
    (d12 : normName c1.name ≠ normName c2.name)
    (d13 : normName c1.name ≠ normName c3.name)
    (d23 : normName c2.name ≠ normName c3.name) :
    (scrape_hot_chips today 3 h [c1, c2, c3]).mainRows
        = [mkRow today c1, mkRow today c2, mkRow today c3] ∧
    (scrape_hot_chips today 3 h [c1, c2, c3]).dupEntries = [mkRow today c2] ∧
    (scrape_hot_chips today 3 h [c1, c2, c3]).saved = 3 := by
  have hs1 : processCandidate today ⟨h, [], [], [], [], 0⟩ c1
      = ⟨h ++ [normName c1.name], [normName c1.name], [], [],
         [mkRow today c1], 1⟩ := by
    unfold processCandidate
    simp [h1]
  have hs2 : processCandidate today
        ⟨h ++ [normName c1.name], [normName c1.name], [], [],
         [mkRow today c1], 1⟩ c2
      = ⟨(h ++ [normName c1.name]) ++ [normName c2.name],
         [normName c1.name, normName c2.name],
         [mkRow today c2], [(c2.name, c2.phone, c2.address, c2.url)],
         [mkRow today c1, mkRow today c2], 2⟩ := by
    unfold processCandidate
    simp [List.mem_append, h2, (Ne.symm d12 : normName c2.name ≠ normName c1.name)]
  have hs3 : processCandidate today
        ⟨(h ++ [normName c1.name]) ++ [normName c2.name],
         [normName c1.name, normName c2.name],
         [mkRow today c2], [(c2.name, c2.phone, c2.address, c2.url)],
         [mkRow today c1, mkRow today c2], 2⟩ c3
      = ⟨((h ++ [normName c1.name]) ++ [normName c2.name]) ++ [normName c3.name],
         [normName c1.name, normName c2.name, normName c3.name],
         [mkRow today c2], [(c2.name, c2.phone, c2.address, c2.url)],
         [mkRow today c1, mkRow today c2, mkRow today c3], 3⟩ := by
    unfold processCandidate
    simp [List.mem_append, h3,
      (Ne.symm d13 : normName c3.name ≠ normName c1.name),
      (Ne.symm d23 : normName c3.name ≠ normName c2.name)]
  have e : scrape_hot_chips today 3 h [c1, c2, c3]
      = ⟨((h ++ [normName c1.name]) ++ [normName c2.name]) ++ [normName c3.name],
         [normName c1.name, normName c2.name, normName c3.name],
         [mkRow today c2], [(c2.name, c2.phone, c2.address, c2.url)],
         [mkRow today c1, mkRow today c2, mkRow today c3], 3⟩ := by
    unfold scrape_hot_chips
    rw [runCandidates]
    rw [if_neg (by decide : ¬ (3:Nat) ≤ 0), hs1]
    rw [runCandidates]
    rw [if_neg (by decide : ¬ (3:Nat) ≤ 1), hs2]
    rw [runCandidates]
    rw [if_neg (by decide : ¬ (3:Nat) ≤ 2), hs3]
    rw [runCandidates]
  rw [e]
  exact ⟨rfl, rfl, rfl⟩

/-- C5: a duplicate-ledger merge never shrinks the key set — every key of
the previous rotated file and every key of this run's duplicate rows
appears among the merged file's keys. -/
theorem merge_superset (existingRows newRows : List Row)
    (k : String × String)
    (hk : k ∈ existingRows.map dupKey ∨ k ∈ newRows.map dupKey) :
    k ∈ (append_to_and_update_timestamp existingRows newRows).map dupKey := by
  unfold append_to_and_update_timestamp
  rw [List.map_append]
  rcases hk with hk | hk
  · exact List.mem_append_left _ hk
  · rcases List.mem_map.mp hk with ⟨r, hr, rfl⟩
    by_cases hmem : dupKey r ∈ existingRows.map dupKey
    · exact List.mem_append_left _ hmem
    · refine List.mem_append_right _ ?_
      exact List.mem_map_of_mem _
        (List.mem_filter.mpr ⟨hr, by simpa using hmem⟩)

/-- C5 witness: a concrete new duplicate row's key survives the merge. -/
theorem merge_superset_spotcheck :
    dupKey (⟨"d", "A", "p", "x", "u"⟩ : Row) ∈
      (append_to_and_update_timestamp [⟨"e", "B", "q", "y", "v"⟩]
        [⟨"d", "A", "p", "x", "u"⟩]).map dupKey :=
  merge_superset [⟨"e", "B", "q", "y", "v"⟩] [⟨"d", "A", "p", "x", "u"⟩]
    (dupKey ⟨"d", "A", "p", "x", "u"⟩) (Or.inr (by decide))

/-- C6: after a run that recorded zero duplicates, a header-only
placeholder is created iff neither a rotated duplicate file nor a
placeholder exists; otherwise the duplicate files are left untouched. -/
theorem finalize_zero_duplicates (fs : DupFiles) (dups : List Row)
    (hd : dups = []) :
    (fs.base = none ∧ fs.rotated = none →
        finalize_duplicate_files fs dups = ⟨some [], none⟩) ∧
    (fs.base ≠ none ∨ fs.rotated ≠ none →
        finalize_duplicate_files fs dups = fs) := by
  subst hd
  unfold finalize_duplicate_files
  constructor
  · rintro ⟨hb, hr⟩
    simp [hb, hr]
  · intro h
    have hcond : (fs.base.isNone && fs.rotated.isNone) = false := by
      rcases h with hb | hr
      · cases hfs : fs.base
        · exact absurd hfs hb
        · simp [hfs]
      · cases hfs : fs.rotated
        · exact absurd hfs hr
        · simp [hfs]
    simp [hcond]

/-- C6 witness: placeholder created when nothing exists; untouched when a
placeholder already exists. -/
theorem finalize_zero_duplicates_spotcheck :
    finalize_duplicate_files ⟨none, none⟩ [] = ⟨some [], none⟩ ∧
    finalize_duplicate_files ⟨some [⟨"d", "A", "p", "x", "u"⟩], none⟩ []
      = ⟨some [⟨"d", "A", "p", "x", "u"⟩], none⟩ :=
  ⟨(finalize_zero_duplicates ⟨none, none⟩ [] rfl).1 ⟨rfl, rfl⟩,
   (finalize_zero_duplicates ⟨some [⟨"d", "A", "p", "x", "u"⟩], none⟩ []
      rfl).2 (Or.inl (by simp))⟩

/-- C1 amended witness: the scenario at concrete candidates. -/
theorem run_with_one_historical_spotcheck :
    (scrape_hot_chips "d" 3 ["b"]
        [(⟨"A", "p1", "x", "u1"⟩ : Candidate), ⟨"B", "p2", "y", "u2"⟩,
         ⟨"C", "p3", "z", "u3"⟩]).mainRows
      = [mkRow "d" ⟨"A", "p1", "x", "u1"⟩, mkRow "d" ⟨"B", "p2", "y", "u2"⟩,
         mkRow "d" ⟨"C", "p3", "z", "u3"⟩] ∧
    (scrape_hot_chips "d" 3 ["b"]
        [(⟨"A", "p1", "x", "u1"⟩ : Candidate), ⟨"B", "p2", "y", "u2"⟩,
         ⟨"C", "p3", "z", "u3"⟩]).dupEntries
      = [mkRow "d" ⟨"B", "p2", "y", "u2"⟩] ∧
    (scrape_hot_chips "d" 3 ["b"]
        [(⟨"A", "p1", "x", "u1"⟩ : Candidate), ⟨"B", "p2", "y", "u2"⟩,
         ⟨"C", "p3", "z", "u3"⟩]).saved = 3 :=
  run_with_one_historical "d" ["b"] ⟨"A", "p1", "x", "u1"⟩
    ⟨"B", "p2", "y", "u2"⟩ ⟨"C", "p3", "z", "u3"⟩ (by decide) (by decide)
    (by decide) (by decide) (by decide) (by decide)

/-- Helper: rows whose ledger keys agree have the same normalized name,
provided neither normalized name is empty. -/
theorem normName_eq_of_key_eq (n1 n2 : String)
    (e : pyLower (pyStrip n1) = pyLower (pyStrip n2))
    (h1 : normName n1 ≠ "") (h2 : normName n2 ≠ "") :
    normName n1 = normName n2 := by
  by_cases e1 : n1 = ""
  · by_cases e2 : n2 = ""
    · rw [e1, e2]
    · exfalso
      apply h2
      unfold normName
      rw [if_neg e2, ← e, e1]
      decide
  · by_cases e2 : n2 = ""
    · exfalso
      apply h1
      unfold normName
      rw [if_neg e1, e, e2]
      decide
    · unfold normName
      rw [if_neg e1, if_neg e2]
      exact e

/-- Helper: one candidate step preserves the duplicate-row invariant. -/
theorem processCandidate_dupInv (today : String) (st : RunState)
    (c : Candidate) (inv : DupInv st) :
    DupInv (processCandidate today st c) := by
  obtain ⟨inv1, inv2, inv3, inv4⟩ := inv
  by_cases hseen : normName c.name ∈ st.seenThisRun
  · rw [processCandidate_skip today st c hseen]
    exact ⟨inv1, inv2, inv3, inv4⟩
  by_cases hhist : normName c.name ∈ st.historical
  · have hnn : normName c.name ≠ "" := by
      intro h0
      exact hseen (h0 ▸ inv4 (h0 ▸ hhist))
    by_cases hdup : (c.name, c.phone, c.address, c.url) ∈ st.dupSeen
    · have hstep : processCandidate today st c =
          ⟨st.historical ++ [normName c.name],
           st.seenThisRun ++ [normName c.name],
           st.dupEntries, st.dupSeen,
           st.mainRows ++ [mkRow today c], st.saved + 1⟩ := by
        unfold processCandidate
        simp [hseen, hhist, hdup]
      rw [hstep]
      refine ⟨inv1, ?_, inv3, ?_⟩
      · intro r hr
        exact List.mem_append_left _ (inv2 r hr)
      · intro h0
        rcases List.mem_append.mp h0 with h0 | h0
        · exact List.mem_append_left _ (inv4 h0)
        · exact List.mem_append_right _ h0
    · have hstep : processCandidate today st c =
          ⟨st.historical ++ [normName c.name],
           st.seenThisRun ++ [normName c.name],
           st.dupEntries ++ [mkRow today c],
           st.dupSeen ++ [(c.name, c.phone, c.address, c.url)],
           st.mainRows ++ [mkRow today c], st.saved + 1⟩ := by
        unfold processCandidate
        simp [hseen, hhist, hdup]
      rw [hstep]
      refine ⟨?_, ?_, ?_, ?_⟩
      · rw [List.map_append]
        rw [List.nodup_append]
        refine ⟨inv1, by simp, ?_⟩
        intro a ha hb
        rcases List.mem_map.mp ha with ⟨r, hr, rfl⟩
        have : normName r.shop_name ∈ st.seenThisRun := inv2 r hr
        simp [mkRow] at hb
        rw [hb] at this
        exact hseen this
      · intro r hr
        rcases List.mem_append.mp hr with hr | hr
        · exact List.mem_append_left _ (inv2 r hr)
        · rcases List.mem_singleton.mp hr with rfl
          simp [mkRow]
      · intro r hr
        rcases List.mem_append.mp hr with hr | hr
        · exact inv3 r hr
        · rcases List.mem_singleton.mp hr with rfl
          simpa [mkRow] using hnn
      · intro h0
        rcases List.mem_append.mp h0 with h0 | h0
        · exact List.mem_append_left _ (inv4 h0)
        · exact List.mem_append_right _ h0
  · have hstep : processCandidate today st c =
        ⟨st.historical ++ [normName c.name],
         st.seenThisRun ++ [normName c.name],
         st.dupEntries, st.dupSeen,
         st.mainRows ++ [mkRow today c], st.saved + 1⟩ := by
      unfold processCandidate
      simp [hseen, hhist]
    rw [hstep]
    refine ⟨inv1, ?_, inv3, ?_⟩
    · intro r hr
      exact List.mem_append_left _ (inv2 r hr)
    · intro h0
      rcases List.mem_append.mp h0 with h0 | h0
      · exact List.mem_append_left _ (inv4 h0)
      · exact List.mem_append_right _ h0

/-- Helper: the candidate loop preserves the duplicate-row invariant. -/
theorem runCandidates_dupInv (today : String) (n : Nat) :
    ∀ (cs : List Candidate) (st : RunState), DupInv st →
      DupInv (runCandidates today n st cs) := by
  intro cs
  induction cs with
  | nil => intro st inv; exact inv
  | cons c rest ih =>
    intro st inv
    unfold runCandidates
    by_cases hs : n ≤ st.saved
    · rw [if_pos hs]; exact inv
    · rw [if_neg hs]
      exact ih _ (processCandidate_dupInv today st c inv)

/-- Helper: a whole run establishes the duplicate-row invariant when the
initial historical set has no empty key. -/
theorem scrape_dupInv (today : String) (n : Nat) (h0 : List String)
    (cands : List Candidate) (hempty : "" ∉ h0) :
    DupInv (scrape_hot_chips today n h0 cands) := by
  apply runCandidates_dupInv
  exact ⟨by simp, by simp, by simp, fun h => absurd h hempty⟩

/-- Helper: under the invariant, the run duplicate rows have pairwise
distinct ledger keys. -/
theorem dupInv_keys_nodup (st : RunState) (inv : DupInv st) :
    (st.dupEntries.map dupKey).Nodup := by
  obtain ⟨inv1, _, inv3, _⟩ := inv
  have hnodup : st.dupEntries.Nodup := List.Nodup.of_map _ inv1
  apply List.Nodup.map_on ?_ hnodup
  intro x hx y hy hxy
  have hfst : pyLower (pyStrip x.shop_name) = pyLower (pyStrip y.shop_name) :=
    congrArg Prod.fst hxy
  have heqn : normName x.shop_name = normName y.shop_name :=
    normName_eq_of_key_eq _ _ hfst (inv3 x hx) (inv3 y hy)
  exact List.inj_on_of_nodup_map inv1 hx hy heqn

/-- Helper: merging key-distinct inputs yields key-distinct output. -/
theorem merge_keys_nodup (existingRows newRows : List Row)
    (he : (existingRows.map dupKey).Nodup)
    (hn : (newRows.map dupKey).Nodup) :
    ((append_to_and_update_timestamp existingRows newRows).map dupKey).Nodup := by
  unfold append_to_and_update_timestamp
  rw [List.map_append, List.nodup_append]
  refine ⟨he, ?_, ?_⟩
  · exact List.Nodup.sublist
      (List.Sublist.map _ (List.filter_sublist _)) hn
  · intro a ha hb
    rcases List.mem_map.mp hb with ⟨r, hr, rfl⟩
    have hnot := (List.mem_filter.mp hr).2
    simp only [decide_eq_true_eq] at hnot
    exact hnot ha

/-- C4: a duplicate-ledger merge never duplicates an identity key: merging
a key-distinct previous rotated file with the duplicate rows recorded by a
run (whose historical index is loaded from prior main files) yields a file
in which each identity key appears in at most one row. -/
theorem merge_with_run_dups_keys_nodup (today : String) (count : Nat)
    (files : List (List Row)) (existingRows : List Row)
    (cands : List Candidate)
    (he : (existingRows.map dupKey).Nodup) :
    ((append_to_and_update_timestamp existingRows
        (scrape_hot_chips today count (load_all_previous_entries files)
          cands).dupEntries).map dupKey).Nodup := by
  apply merge_keys_nodup _ _ he
  apply dupInv_keys_nodup
  apply scrape_dupInv
  intro hmem
  unfold load_all_previous_entries at hmem
  have hne := (List.mem_filter.mp hmem).2
  simp at hne

/-- C4 witness: a run that records one duplicate, merged into a one-row
rotated file. -/
theorem merge_with_run_dups_keys_nodup_spotcheck :
    ((append_to_and_update_timestamp [⟨"e", "B", "q", "y", "v"⟩]
        (scrape_hot_chips "d" 1
          (load_all_previous_entries [[⟨"e", "A", "q", "y", "v"⟩]])
          [⟨"A", "p", "x", "u"⟩]).dupEntries).map dupKey).Nodup :=
  merge_with_run_dups_keys_nodup "d" 1 [[⟨"e", "A", "q", "y", "v"⟩]]
    [⟨"e", "B", "q", "y", "v"⟩] [⟨"A", "p", "x", "u"⟩] (by decide)

/-- Helper: every query the area-validation loop sends to the external
probe passed the obvious-invalidity check first. -/
theorem probes_are_valid (probe : String → Bool) :
    ∀ (inputs : List String) (n : Nat) (x : String),
      x ∈ (get_valid_area_from_user probe inputs n).probes →
      is_obviously_invalid_area x = false := by
  intro inputs
  induction inputs with
  | nil =>
    intro n x hx
    cases n <;> simp [get_valid_area_from_user] at hx
  | cons a rest ih =>
    intro n x hx
    cases n with
    | zero => simp [get_valid_area_from_user] at hx
    | succ m =>
      by_cases hinv : is_obviously_invalid_area (pyStrip a) = true
      · by_cases hm : m = 0
        · simp [get_valid_area_from_user, hinv, hm] at hx
        · rw [show (get_valid_area_from_user probe (a :: rest) (m + 1))
              = get_valid_area_from_user probe rest m by
            simp [get_valid_area_from_user, hinv, hm]] at hx
          exact ih m x hx
      · have hinv' : is_obviously_invalid_area (pyStrip a) = false :=
          Bool.eq_false_iff.mpr hinv
        by_cases hpr : probe (pyStrip a) = true
        · have hp : (get_valid_area_from_user probe (a :: rest) (m + 1)).probes
              = [pyStrip a] := by
            simp [get_valid_area_from_user, hinv, hpr]
          rw [hp] at hx
          rcases List.mem_singleton.mp hx with rfl
          exact hinv'
        · by_cases hm : m = 0
          · have hp : (get_valid_area_from_user probe (a :: rest) (m + 1)).probes
                = [pyStrip a] := by
              simp [get_valid_area_from_user, hinv, hpr, hm]
            rw [hp] at hx
            rcases List.mem_singleton.mp hx with rfl
            exact hinv'
          · have hp : (get_valid_area_from_user probe (a :: rest) (m + 1)).probes
                = pyStrip a :: (get_valid_area_from_user probe rest m).probes := by
              simp [get_valid_area_from_user, hinv, hpr, hm]
            rw [hp] at hx
            rcases List.mem_cons.mp hx with rfl | hx
            · exact hinv'
            · exact ih m x hx

/-- C8: an area input that is empty (after stripping), purely numeric, or
has fewer than two alphabetic characters is rejected by
`is_obviously_invalid_area`, and such an input is never sent to the
external search probe by the validation loop. -/
theorem invalid_area_rejected_before_probe (s : String)
    (h : pyStrip s = "" ∨ pyIsDigit (pyStrip s) = true ∨
        ((pyStrip s).data.filter Char.isAlpha).length < 2) :
    is_obviously_invalid_area s = true ∧
    ∀ (probe : String → Bool) (inputs : List String) (n : Nat),
      s ∉ (get_valid_area_from_user probe inputs n).probes := by
  have h1 : is_obviously_invalid_area s = true := by
    unfold is_obviously_invalid_area
    dsimp only
    split_ifs with w1 w2 w3 w4
    · rfl
    · rfl
    · rfl
    · rfl
    · rcases h with h0 | hd | hl
      · exact absurd h0 w1
      · exact absurd hd w2
      · exact absurd hl w4
  refine ⟨h1, ?_⟩
  intro probe inputs n hx
  have := probes_are_valid probe inputs n s hx
  rw [h1] at this
  simp at this

/-- C8 witness: the pure-digit input `"12345"` is rejected and never
probed by a concrete loop run. -/
theorem invalid_area_rejected_before_probe_spotcheck :
    is_obviously_invalid_area "12345" = true ∧
    "12345" ∉ (get_valid_area_from_user (fun _ => true)
        ["12345", "Indiranagar"] 2).probes := by
  have h := invalid_area_rejected_before_probe "12345" (by decide)
  exact ⟨h.1, h.2 (fun _ => true) ["12345", "Indiranagar"] 2⟩

end HotChips
